import Mathlib

/-!
Verification development for the Innervation Index application
(`innervation_app.py`, "Innervation Index V6.2").

The Python source is shallowly embedded: float arithmetic is modelled by `ℚ`
(at every concrete input used below the float computation is exact on dyadic
values, so the `ℚ` value coincides with the float value), machine integers by
`ℕ`/`ℤ`, numpy arrays by lists, and the mutable Tk application state by
explicit state records with pure transition functions.
-/

/-- Truncation toward zero, as Python `int(...)` applied to a float. -/
def ratTrunc (q : ℚ) : ℤ := if 0 ≤ q then ⌊q⌋ else ⌈q⌉

/-- Round half to even, as the Python builtin `round`; PIL's `Image.crop`
applies it to each float box coordinate (`map(int, map(round, box))`). -/
def pyRound (q : ℚ) : ℤ :=
  if q - ⌊q⌋ < 1/2 then ⌊q⌋
  else if 1/2 < q - ⌊q⌋ then ⌊q⌋ + 1
  else if ⌊q⌋ % 2 = 0 then ⌊q⌋ else ⌊q⌋ + 1

/-- Running cumulative sums, as `np.cumsum`. -/
def cumsum (l : List ℚ) : List ℚ := (l.scanl (fun a b => a + b) 0).tail

/-- Helper for `argmaxList`: scans the remaining list keeping the index of
the first maximal entry seen so far (a later entry wins only when strictly
greater, matching `np.argmax` tie-breaking). -/
def argmaxAux : List ℚ → ℕ → ℕ → ℚ → ℕ
  | [], _, bi, _ => bi
  | x :: xs, i, bi, b => if b < x then argmaxAux xs (i+1) i x else argmaxAux xs (i+1) bi b

/-- Index of the first maximal entry of a list, as `np.argmax`. -/
def argmaxList : List ℚ → ℕ
  | [] => 0
  | x :: xs => argmaxAux xs 1 0 x

/-- The part of `calculate_otsu_threshold` downstream of the histogram:
normalised histogram, cumulative background weights and means, global mean,
the valid mask `0 < w < 1`, the inter-class variance
`w·(1−w)·(mean_bg_safe − mean_fg)²` and first-argmax, reproduced literally
from the source.  (numpy evaluates `mean_bg/weight_bg` and
`(global_mean−mean_bg)/(1−weight_bg)` everywhere but reads them only under
the valid mask; here the divisions happen only where the mask holds.) -/
def otsuFromHist (n : ℕ) (hist : List ℕ) : ℕ :=
  let histNorm : List ℚ := hist.map (fun c => (c : ℚ) / n)
  let weight_bg := cumsum histNorm
  let mean_bg := cumsum (List.zipWith (fun h (i : ℕ) => h * i) histNorm (List.range 256))
  let global_mean := mean_bg.getLastD 0
  let between_var := List.zipWith
    (fun w m => if 0 < w ∧ w < 1 then
        w * (1 - w) * (m / w - (global_mean - m) / (1 - w))^2
      else 0) weight_bg mean_bg
  argmaxList between_var

/-- `calculate_otsu_threshold(image_array)` from `innervation_app.py`.
Its callers pass 8-bit pixel data, on which
`np.histogram(pixels, bins=256, range=(0,256))` bins value `i` into bin `i`,
i.e. bin `i` holds the number of pixels equal to `i`. -/
def calculate_otsu_threshold (pixels : List ℕ) : ℕ :=
  if pixels = [] then 0
  else otsuFromHist pixels.length ((List.range 256).map (fun i => pixels.count i))

/-- The synthetic bimodal sample of the spec: 1000 samples at 10 and 1000
samples at 200. -/
def bimodalSample : List ℕ := List.replicate 1000 10 ++ List.replicate 1000 200

theorem bimodal_length : bimodalSample.length = 2000 := by
  rw [bimodalSample, List.length_append, List.length_replicate, List.length_replicate]

theorem bimodal_ne_nil : bimodalSample ≠ [] := by
  intro h
  have h2 := bimodal_length
  rw [h, List.length_nil] at h2
  exact absurd h2 (by decide)

theorem bimodal_count (i : ℕ) :
    bimodalSample.count i = if i = 10 then 1000 else if i = 200 then 1000 else 0 := by
  rw [bimodalSample, List.count_append, List.count_replicate, List.count_replicate]
  rcases eq_or_ne i 10 with h10 | h10
  · subst h10
    norm_num
  · rcases eq_or_ne i 200 with h200 | h200
    · subst h200
      norm_num
    · simp only [beq_iff_eq]
      rw [if_neg h10, if_neg h200, if_neg (fun h => h10 h.symm), if_neg (fun h => h200 h.symm)]

set_option maxRecDepth 10000 in
set_option maxHeartbeats 2000000 in
/-- On the bimodal sample the inter-class variance is maximal (and constant)
on the whole plateau of candidate thresholds 10..199, and `np.argmax`
returns the first index attaining the maximum, so the computed threshold is
exactly 10. -/
theorem bimodal_otsu_eq : calculate_otsu_threshold bimodalSample = 10 := by
  rw [calculate_otsu_threshold, if_neg bimodal_ne_nil, bimodal_length,
    List.map_congr_left (fun i _ => bimodal_count i)]
  with_unfolding_all decide

/-- C5, counterexample: on the synthetic bimodal input (1000 samples at 10,
1000 at 200) the Otsu computation of the code does NOT return a threshold
strictly between 10 and 200: it returns exactly 10. -/
theorem C5_otsu_bimodal_not_strictly_between :
    ¬ (10 < calculate_otsu_threshold bimodalSample ∧
       calculate_otsu_threshold bimodalSample < 200) := by
  intro h
  rw [bimodal_otsu_eq] at h
  exact absurd h.1 (by decide)

/-- C5, amended: on the synthetic bimodal input (1000 samples at 10, 1000 at
200) the Otsu threshold computation returns exactly 10 — the lower mode, not
a value strictly between the modes — because the inter-class variance is
constant on the candidate range 10..199 and `np.argmax` takes the first
index of the maximum.  (Thus `10 ≤ t < 200` holds but `10 < t` does not.) -/
theorem C5_otsu_bimodal_eq_ten : calculate_otsu_threshold bimodalSample = 10 :=
  bimodal_otsu_eq

/-- The two entries of the "Threshold Algo" combobox:
`"1-0 Cut off"` and `"Otsu"`. -/
inductive AlgoMode
  | cutoff
  | otsu
deriving DecidableEq

/-- The initial content `"2500"` of the cutoff entry (`self.ent_cutoff`),
inserted by `_setup_ui`; Python's `float("2500")` parses it to 2500.0. -/
def initialCutoffEntry : ℚ := 2500

/-- Threshold used by `calculate_only`: Otsu on the masked non-zero ROI
population `valid_pixels`, or `float(self.ent_cutoff.get())` with fallback
128 when parsing raises.  The entry text is modelled as `Option ℚ`
(`none` = `float(...)` raises). -/
def measureThreshold (mode : AlgoMode) (entry : Option ℚ) (validPixels : List ℕ) : ℚ :=
  match mode with
  | .otsu => (calculate_otsu_threshold validPixels : ℚ)
  | .cutoff => match entry with
    | some v => v
    | none => 128

/-- Threshold used by `render_view` for the red overlay: Otsu on the whole
processed displayed image, or the parsed cutoff entry with fallback 255 when
parsing raises. -/
def previewThreshold (mode : AlgoMode) (entry : Option ℚ) (displayPixels : List ℕ) : ℚ :=
  match mode with
  | .otsu => (calculate_otsu_threshold displayPixels : ℚ)
  | .cutoff => match entry with
    | some v => v
    | none => 255

/-- The index computation of `calculate_only` (lines 445-456), starting from
`roi_pixels = img_data[mask]`, the list of processed-ROI pixel values
selected by the rasterized polygon mask: drop zero pixels, return 0.0 on an
empty remainder, otherwise threshold the non-zero population and return
`100 * count(valid_pixels > thresh) / valid_pixels.size`. -/
def calculate_only_index (mode : AlgoMode) (entry : Option ℚ) (roiPixels : List ℕ) : ℚ :=
  let valid := roiPixels.filter (fun p => 0 < p)
  if valid = [] then 0
  else
    let thresh := measureThreshold mode entry valid
    100 * ((valid.countP (fun (p : ℕ) => decide (thresh < (p : ℚ)))) : ℚ) / valid.length

/-- The interaction modes of the canvas (`self.mode`). -/
inductive AppMode
  | view
  | draw
  | zoomSelect
deriving DecidableEq

/-- `finish_polygon`: a no-op unless the mode is DRAW and at least 3 points
were drawn; it never modifies `drawing_points`, it only draws the closing
edge and the polygon overlay.  Returns the (unchanged) point list and
whether the closed shape was recorded on the canvas. -/
def finish_polygon (mode : AppMode) (drawing_points : List (ℤ × ℤ)) :
    List (ℤ × ℤ) × Bool :=
  if mode ≠ AppMode.draw ∨ drawing_points.length < 3 then (drawing_points, false)
  else (drawing_points, true)

/-- The outcome of `calculate_only`: the ROI-missing warning
(`Except.error ()`, from `if not self.drawing_points`) is raised only when
the drawing-point list is empty; otherwise the index is computed.  The
coordinate mapping and mask rasterization between the two steps are
abstracted into the `roiPixels` argument of `calculate_only_index`. -/
def calculate_only (drawing_points : List (ℤ × ℤ)) (mode : AlgoMode)
    (entry : Option ℚ) (roiPixels : List ℕ) : Except Unit ℚ :=
  if drawing_points = [] then Except.error ()
  else Except.ok (calculate_only_index mode entry roiPixels)

/-- First entry of a nonempty list folded with `min`, as `np.min`. -/
def listMin : List ℚ → ℚ
  | [] => 0
  | x :: xs => xs.foldl min x

/-- First entry of a nonempty list folded with `max`, as `np.max`. -/
def listMax : List ℚ → ℚ
  | [] => 0
  | x :: xs => xs.foldl max x

/-- The ROI bounding box of `calculate_only` (lines 430-434) over the
image-space point list `real_points`:
`(max(0, int(min xs)), int(max xs), max(0, int(min ys)), int(max ys))`.
Only the lower bounds are clamped; the upper bounds are not clamped to the
image width/height. -/
def roi_bounding_box (real_points : List (ℚ × ℚ)) : ℤ × ℤ × ℤ × ℤ :=
  let xs := real_points.map Prod.fst
  let ys := real_points.map Prod.snd
  (max 0 (ratTrunc (listMin xs)), ratTrunc (listMax xs),
   max 0 (ratTrunc (listMin ys)), ratTrunc (listMax ys))

/-- `apply_filters_to_image(pil_image, contrast, brightness, noise)`:
Gaussian blur when `noise > 0`, then contrast enhancement when the factor
is ≠ 1, then brightness enhancement when the factor is ≠ 1, in this fixed
order.  The three PIL pixel transforms are parameters of the embedding
(`ImageFilter.GaussianBlur`, `ImageEnhance.Contrast`,
`ImageEnhance.Brightness`); every claim about this function concerns only
the guards and the order of application. -/
def apply_filters_to_image {Img : Type} (blurF contrastF brightnessF : ℚ → Img → Img)
    (img : Img) (contrast brightness noise : ℚ) : Img :=
  let i1 := if 0 < noise then blurF noise img else img
  let i2 := if contrast ≠ 1 then contrastF contrast i1 else i1
  if brightness ≠ 1 then brightnessF brightness i2 else i2

/-- C2: for every threshold mode, cutoff entry and masked ROI pixel list,
the computed index is in [0,100] (it is a total rational-valued function,
so in particular never NaN), and when every selected pixel is 0 the index
is exactly 0. -/
theorem C2_index_in_range_and_all_zero
    (mode : AlgoMode) (entry : Option ℚ) (roiPixels : List ℕ) :
    0 ≤ calculate_only_index mode entry roiPixels ∧
    calculate_only_index mode entry roiPixels ≤ 100 ∧
    ((∀ x ∈ roiPixels, x = 0) → calculate_only_index mode entry roiPixels = 0) := by
  unfold calculate_only_index
  by_cases he : roiPixels.filter (fun p => 0 < p) = []
  · rw [if_pos he]
    refine ⟨le_refl 0, by norm_num, fun _ => rfl⟩
  · rw [if_neg he]
    set valid := roiPixels.filter (fun p => 0 < p) with hv
    have hlen : 0 < (valid.length : ℚ) := by
      have h0 : valid.length ≠ 0 := fun h => he (List.length_eq_zero.mp h)
      exact_mod_cast Nat.pos_of_ne_zero h0
    have hcount : ((valid.countP
        (fun (p : ℕ) => decide (measureThreshold mode entry valid < (p : ℚ)))) : ℚ)
        ≤ (valid.length : ℚ) := by
      exact_mod_cast List.countP_le_length _
    refine ⟨by positivity, ?_, ?_⟩
    · rw [div_le_iff₀ hlen]
      have hc0 : (0 : ℚ) ≤ (valid.countP
          (fun (p : ℕ) => decide (measureThreshold mode entry valid < (p : ℚ))) : ℚ) := by
        positivity
      nlinarith
    · intro hall
      exfalso
      apply he
      apply List.filter_eq_nil_iff.mpr
      intro a ha
      have : a = 0 := hall a ha
      simp [this]

/-- C2 witness: at the concrete all-zero masked pixel list `[0, 0]` with a
fixed cutoff of 128 the index is in range and exactly 0. -/
theorem C2_witness :
    0 ≤ calculate_only_index AlgoMode.cutoff (some 128) [0, 0] ∧
    calculate_only_index AlgoMode.cutoff (some 128) [0, 0] ≤ 100 ∧
    calculate_only_index AlgoMode.cutoff (some 128) [0, 0] = 0 :=
  ⟨(C2_index_in_range_and_all_zero AlgoMode.cutoff (some 128) [0, 0]).1,
   (C2_index_in_range_and_all_zero AlgoMode.cutoff (some 128) [0, 0]).2.1,
   (C2_index_in_range_and_all_zero AlgoMode.cutoff (some 128) [0, 0]).2.2 (by decide)⟩

/-- C10: calibrated pixels are 8-bit (≤ 255) and the fixed-cutoff predicate
is the strict `pixel > value`, so with the initial default cutoff entry of
2500 every measurement yields index exactly 0, in particular whenever the
ROI contains a non-zero pixel. -/
theorem C10_default_cutoff_yields_zero (roiPixels : List ℕ)
    (hbound : ∀ x ∈ roiPixels, x ≤ 255) (_hnz : ∃ x ∈ roiPixels, x ≠ 0) :
    calculate_only_index AlgoMode.cutoff (some initialCutoffEntry) roiPixels = 0 := by
  unfold calculate_only_index
  by_cases he : roiPixels.filter (fun p => 0 < p) = []
  · rw [if_pos he]
  · rw [if_neg he]
    set valid := roiPixels.filter (fun p => 0 < p) with hv
    have hcz : valid.countP
        (fun (p : ℕ) => decide (measureThreshold AlgoMode.cutoff (some initialCutoffEntry) valid
          < (p : ℚ))) = 0 := by
      apply List.countP_eq_zero.mpr
      intro a ha
      have ha' : a ∈ roiPixels := List.mem_of_mem_filter ha
      have hle : (a : ℚ) ≤ 255 := by exact_mod_cast hbound a ha'
      have : ¬ (measureThreshold AlgoMode.cutoff (some initialCutoffEntry) valid < (a : ℚ)) := by
        rw [measureThreshold, initialCutoffEntry]
        push_neg
        linarith
      simpa using this
    dsimp only
    rw [hcz]
    norm_num

/-- C10 witness: the masked pixel list `[7]` (8-bit, non-zero) with the
default cutoff entry 2500 yields index 0. -/
theorem C10_witness :
    calculate_only_index AlgoMode.cutoff (some initialCutoffEntry) [7] = 0 :=
  C10_default_cutoff_yields_zero [7] (by decide) (by decide)

/-- C3, counterexample: finalizing in DRAW mode with exactly 2 points draws
no shape, but a subsequent calculate does NOT raise the ROI-missing warning
(the guard `if not self.drawing_points` only fires on an empty point list):
it proceeds and computes an index. -/
theorem C3_two_points_calculate_proceeds :
    (finish_polygon AppMode.draw [((0 : ℤ), (0 : ℤ)), (5, 0)]).2 = false ∧
    calculate_only [((0 : ℤ), (0 : ℤ)), (5, 0)] AlgoMode.cutoff (some 100) [5]
      ≠ Except.error () := by
  constructor
  · decide
  · rw [calculate_only, if_neg (by decide)]
    simp

/-- C3, amended: finalizing with fewer than 3 points records no shape and
leaves the point list unchanged, but the ROI-missing warning of a subsequent
calculate fires only when the point list is empty; with a nonempty list
(e.g. exactly 2 points) the calculation proceeds and an index is computed. -/
theorem C3_finalize_and_calculate_guards (mode : AppMode) (pts : List (ℤ × ℤ))
    (m : AlgoMode) (entry : Option ℚ) (px : List ℕ) (hlt : pts.length < 3) :
    (finish_polygon mode pts).2 = false ∧
    (finish_polygon mode pts).1 = pts ∧
    calculate_only [] m entry px = Except.error () ∧
    (pts ≠ [] → calculate_only pts m entry px =
       Except.ok (calculate_only_index m entry px)) := by
  refine ⟨?_, ?_, ?_, ?_⟩
  · rw [finish_polygon, if_pos (Or.inr hlt)]
  · rw [finish_polygon]
    split <;> rfl
  · rw [calculate_only, if_pos rfl]
  · intro hne
    rw [calculate_only, if_neg hne]

/-- C3 witness: the amended statement at the concrete two-point list
`[(0,0), (5,0)]`, with all hypotheses discharged. -/
theorem C3_witness :
    (finish_polygon AppMode.draw [((0 : ℤ), (0 : ℤ)), (5, 0)]).2 = false ∧
    (finish_polygon AppMode.draw [((0 : ℤ), (0 : ℤ)), (5, 0)]).1
      = [((0 : ℤ), (0 : ℤ)), (5, 0)] ∧
    calculate_only [] AlgoMode.cutoff (some 100) [5] = Except.error () ∧
    calculate_only [((0 : ℤ), (0 : ℤ)), (5, 0)] AlgoMode.cutoff (some 100) [5]
      = Except.ok (calculate_only_index AlgoMode.cutoff (some 100) [5]) :=
  ⟨(C3_finalize_and_calculate_guards AppMode.draw [((0 : ℤ), (0 : ℤ)), (5, 0)]
      AlgoMode.cutoff (some 100) [5] (by decide)).1,
   (C3_finalize_and_calculate_guards AppMode.draw [((0 : ℤ), (0 : ℤ)), (5, 0)]
      AlgoMode.cutoff (some 100) [5] (by decide)).2.1,
   (C3_finalize_and_calculate_guards AppMode.draw [((0 : ℤ), (0 : ℤ)), (5, 0)]
      AlgoMode.cutoff (some 100) [5] (by decide)).2.2.1,
   (C3_finalize_and_calculate_guards AppMode.draw [((0 : ℤ), (0 : ℤ)), (5, 0)]
      AlgoMode.cutoff (some 100) [5] (by decide)).2.2.2 (by decide)⟩

/-- C1: evaluation at the failing input.  For the image-space ROI points
`(5,5), (150,20), (10,30)` on a 100×100 image, the bounding box computed by
`calculate_only` has `max_x = 150 > 100 = imageWidth`: the upper bound is
not clamped to the image extent, so the crop passed to measurement extends
past the image (out-of-range PIL crop area is zero-padded). -/
theorem C1_bbox_upper_bound_unclamped :
    (roi_bounding_box [(5, 5), (150, 20), (10, 30)]).2.1 = 150 ∧
    100 < (roi_bounding_box [(5, 5), (150, 20), (10, 30)]).2.1 := by
  with_unfolding_all decide

/-- C8, counterexample: the threshold applied to the pipeline output is NOT
computed identically for the on-screen preview and for the measurement: on
an unparseable cutoff entry the preview falls back to threshold 255 while
the measurement falls back to 128. -/
theorem C8_thresholds_not_identical :
    previewThreshold AlgoMode.cutoff none [] ≠ measureThreshold AlgoMode.cutoff none [] := by
  rw [previewThreshold, measureThreshold]
  norm_num

/-- C8, amended: the filter pipeline itself is the shared function
`apply_filters_to_image`, applied with the same settings in the fixed order
blur (skipped at radius 0 — skipping equals applying a radius-≤0 blur that
is the identity) → contrast → brightness, for both the preview and the
measurement; but the threshold applied to its output differs between the
two paths: with mode `cutoff` and an unparseable entry the preview uses 255
and the measurement 128, and with mode `otsu` the preview fits the
histogram on all displayed pixels while the measurement fits it on the
masked non-zero ROI population (the `validPixels` argument fed by
`calculate_only_index`). -/
theorem C8_pipeline_order_and_threshold_divergence {Img : Type}
    (blurF contrastF brightnessF : ℚ → Img → Img)
    (img : Img) (contrast brightness noise : ℚ)
    (hblur : ∀ m x, m ≤ 0 → blurF m x = x)
    (hcontrast : ∀ x, contrastF 1 x = x)
    (hbright : ∀ x, brightnessF 1 x = x) :
    apply_filters_to_image blurF contrastF brightnessF img contrast brightness noise
      = brightnessF brightness (contrastF contrast (blurF noise img)) ∧
    previewThreshold AlgoMode.cutoff none [] = 255 ∧
    measureThreshold AlgoMode.cutoff none [] = 128 ∧
    (∀ e px, previewThreshold AlgoMode.otsu e px = (calculate_otsu_threshold px : ℚ)) ∧
    (∀ e px, measureThreshold AlgoMode.otsu e px = (calculate_otsu_threshold px : ℚ)) := by
  refine ⟨?_, rfl, rfl, fun e px => rfl, fun e px => rfl⟩
  have h1 : (if 0 < noise then blurF noise img else img) = blurF noise img := by
    by_cases hn : 0 < noise
    · rw [if_pos hn]
    · rw [if_neg hn, hblur noise img (le_of_not_lt hn)]
  have h2 : ∀ y, (if contrast ≠ 1 then contrastF contrast y else y) = contrastF contrast y := by
    intro y
    by_cases hc : contrast = 1
    · rw [if_neg (by simp [hc]), hc, hcontrast]
    · rw [if_pos hc]
  have h3 : ∀ y, (if brightness ≠ 1 then brightnessF brightness y else y)
      = brightnessF brightness y := by
    intro y
    by_cases hb : brightness = 1
    · rw [if_neg (by simp [hb]), hb, hbright]
    · rw [if_pos hb]
  rw [apply_filters_to_image]
  rw [h1, h2, h3]

/-- C8 witness: the amended statement instantiated with concrete scalar
"images" and filter primitives (identity blur, multiplicative contrast and
brightness), settings contrast 2, brightness 3, blur radius 0, input 5. -/
theorem C8_witness :
    apply_filters_to_image (fun (_ : ℚ) (x : ℚ) => x) (fun f x => f * x) (fun f x => f * x)
      (5 : ℚ) 2 3 0 = 3 * (2 * 5) ∧
    previewThreshold AlgoMode.cutoff none [] = 255 ∧
    measureThreshold AlgoMode.cutoff none [] = 128 :=
  ⟨(C8_pipeline_order_and_threshold_divergence (fun _ x => x) (fun f x => f * x)
      (fun f x => f * x) (5 : ℚ) 2 3 0 (fun _ _ _ => rfl)
      (fun x => one_mul x) (fun x => one_mul x)).1,
   (C8_pipeline_order_and_threshold_divergence (fun (_ : ℚ) (x : ℚ) => x) (fun f x => f * x)
      (fun f x => f * x) (5 : ℚ) 2 3 0 (fun _ _ _ => rfl)
      (fun x => one_mul x) (fun x => one_mul x)).2.1,
   (C8_pipeline_order_and_threshold_divergence (fun (_ : ℚ) (x : ℚ) => x) (fun f x => f * x)
      (fun f x => f * x) (5 : ℚ) 2 3 0 (fun _ _ _ => rfl)
      (fun x => one_mul x) (fun x => one_mul x)).2.2.1⟩

/-- The zoom/crop view state: `view_offset` (a Python float pair — it
becomes fractional after `apply_zoom` adds the unrounded view coordinate
`x1`) together with the integer pixel size of `view_crop_raw`. -/
structure ViewState where
  ox : ℚ
  oy : ℚ
  w : ℤ
  h : ℤ
deriving DecidableEq

/-- `reset_current_view`: offset (0,0), crop = the full original image. -/
def reset_current_view (W H : ℤ) : ViewState := ⟨0, 0, W, H⟩

/-- The display geometry computed by `render_view` for canvas size
`(cw, ch)` and current crop `s`: `(display_scale, canvas_offset_x,
canvas_offset_y)`.  Mirrors `if cw < 10: cw, ch = 800, 600`,
`scale = min(cw/iw, ch/ih)`, `new_size = (int(iw*scale), int(ih*scale))`,
`canvas_offset = ((cw - new_w)//2, (ch - new_h)//2)`. -/
def renderScale (s : ViewState) (cw ch : ℤ) : ℚ × ℤ × ℤ :=
  let cw2 : ℤ := if cw < 10 then 800 else cw
  let ch2 : ℤ := if cw < 10 then 600 else ch
  let scale : ℚ := min ((cw2 : ℚ) / s.w) ((ch2 : ℚ) / s.h)
  let newW : ℤ := ratTrunc (s.w * scale)
  let newH : ℤ := ratTrunc (s.h * scale)
  (scale, (cw2 - newW) / 2, (ch2 - newH) / 2)

/-- `x1, x2 = sorted([max(0, min(w, x)) for x in [x1, x2]])`: clamp both
view coordinates to `[0, w]` and order them. -/
def clampPair (w : ℤ) (u v : ℚ) : ℚ × ℚ :=
  (min (max 0 (min (w : ℚ) u)) (max 0 (min (w : ℚ) v)),
   max (max 0 (min (w : ℚ) u)) (max 0 (min (w : ℚ) v)))

/-- `apply_zoom(start, end)`: convert the two display corners to view
coordinates through the geometry of the preceding `render_view` pass, clamp
to the current crop, reject boxes under 10 view pixels wide or tall
(mode-revert no-op), otherwise add the unrounded `x1, y1` to the float
`view_offset` and crop `view_crop_raw` to the box — whose coordinates PIL
rounds half-to-even, so the new crop size is
`round(x2) - round(x1), round(y2) - round(y1)`. -/
def apply_zoom (s : ViewState) (cw ch sx sy ex ey : ℤ) : ViewState :=
  let r := renderScale s cw ch
  let x1d : ℚ := (sx - r.2.1) / r.1
  let y1d : ℚ := (sy - r.2.2) / r.1
  let x2d : ℚ := (ex - r.2.1) / r.1
  let y2d : ℚ := (ey - r.2.2) / r.1
  let px := clampPair s.w x1d x2d
  let py := clampPair s.h y1d y2d
  if px.2 - px.1 < 10 ∨ py.2 - py.1 < 10 then s
  else
    { ox := s.ox + px.1, oy := s.oy + py.1,
      w := pyRound px.2 - pyRound px.1, h := pyRound py.2 - pyRound py.1 }

/-- One axis of `zoom_out_step` for image extent `Wa`, float offset `o` and
integer crop size `wa`: the expanded size is `int(wa * 1.5)`, the new edge
`new_x = (o + wa // 2) - new_w // 2` (Python `//` floor division on the
integer sizes), and the returned pair is the clamped integer edges
`(max(0, int(new_x)), min(Wa, int(new_x + new_w)))`, `int` truncating the
float toward zero. -/
def zoomOutAxis (Wa : ℤ) (o : ℚ) (wa : ℤ) : ℤ × ℤ :=
  let nw : ℤ := ratTrunc ((wa : ℚ) * (3/2))
  let nx : ℚ := (o + (wa / 2 : ℤ)) - (nw / 2 : ℤ)
  (max 0 (ratTrunc nx), min Wa (ratTrunc (nx + nw)))

/-- `zoom_out_step`: no-op at full extent; otherwise grow the crop size by
factor 1.5, recenter on the current crop's center, clamp each edge to the
image bounds per axis (`zoomOutAxis`), and make the clamped integer
rectangle the new offset and crop. -/
def zoom_out_step (W H : ℤ) (s : ViewState) : ViewState :=
  if s.w ≥ W ∧ s.h ≥ H then s
  else
    let px := zoomOutAxis W s.ox s.w
    let py := zoomOutAxis H s.oy s.h
    { ox := (px.1 : ℚ), oy := (py.1 : ℚ), w := px.2 - px.1, h := py.2 - py.1 }

/-- The view operations reachable from the UI: Reset View, a zoom-in
rectangle dragged on a `cw × ch` canvas from `(sx, sy)` to `(ex, ey)`, and
a zoom-out step. -/
inductive ViewOp
  | reset
  | zoomIn (cw ch sx sy ex ey : ℤ)
  | zoomOut

/-- One view operation applied to the state, for image size `(W, H)`. -/
def stepView (W H : ℤ) (s : ViewState) : ViewOp → ViewState
  | .reset => reset_current_view W H
  | .zoomIn cw ch sx sy ex ey => apply_zoom s cw ch sx sy ex ey
  | .zoomOut => zoom_out_step W H s

/-- The view state after a sequence of operations, starting (as
`load_image_from_disk` does) from the full-image view. -/
def runView (W H : ℤ) (ops : List ViewOp) : ViewState :=
  ops.foldl (stepView W H) (reset_current_view W H)

/-- Number of zoom-in operations in a sequence. -/
def zoomInCount : List ViewOp → ℕ :=
  List.countP (fun op => match op with | ViewOp.zoomIn _ _ _ _ _ _ => true | _ => false)

theorem pyRound_le (q : ℚ) : (pyRound q : ℚ) ≤ q + 1/2 := by
  rw [pyRound]
  have h0 : (⌊q⌋ : ℚ) ≤ q := Int.floor_le q
  have h1 : q - 1 < (⌊q⌋ : ℚ) := Int.sub_one_lt_floor q
  split_ifs with hA hB hC <;> push_cast <;> linarith

theorem le_pyRound (q : ℚ) : q - 1/2 ≤ (pyRound q : ℚ) := by
  rw [pyRound]
  have h0 : (⌊q⌋ : ℚ) ≤ q := Int.floor_le q
  have h1 : q - 1 < (⌊q⌋ : ℚ) := Int.sub_one_lt_floor q
  split_ifs with hA hB hC <;> push_cast <;> linarith

theorem pyRound_le_int {q : ℚ} {i : ℤ} (h : q ≤ (i : ℚ)) : pyRound q ≤ i := by
  have h2 := pyRound_le q
  have h3 : (pyRound q : ℚ) < (i : ℚ) + 1 := by linarith
  have h4 : pyRound q < i + 1 := by exact_mod_cast h3
  omega

theorem ratTrunc_le_of_le_int {q : ℚ} {i : ℤ} (h : q ≤ (i : ℚ)) : ratTrunc q ≤ i := by
  rw [ratTrunc]
  split_ifs with hq
  · have h2 := Int.floor_le_floor h
    rwa [Int.floor_intCast] at h2
  · exact Int.ceil_le.mpr h

theorem int_le_ratTrunc_of_le {i : ℤ} {q : ℚ} (h : (i : ℚ) ≤ q) : i ≤ ratTrunc q := by
  rw [ratTrunc]
  split_ifs with hq
  · exact Int.le_floor.mpr h
  · have h2 := Int.ceil_le_ceil h
    rwa [Int.ceil_intCast] at h2

/-- The (weakened) view-state invariant after `k` zoom-in steps: crop origin
nonnegative, and crop origin plus crop size at most image size plus half a
pixel of float drift per zoom-in step. -/
def ViewInv (W H : ℤ) (k : ℕ) (s : ViewState) : Prop :=
  0 ≤ s.ox ∧ 0 ≤ s.oy ∧
  s.ox + (s.w : ℚ) ≤ (W : ℚ) + (k : ℚ)/2 ∧ s.oy + (s.h : ℚ) ≤ (H : ℚ) + (k : ℚ)/2

theorem viewInv_mono (W H : ℤ) {k k2 : ℕ} (hk : k ≤ k2) {s : ViewState}
    (h : ViewInv W H k s) : ViewInv W H k2 s := by
  obtain ⟨h1, h2, h3, h4⟩ := h
  have hq : (k : ℚ) ≤ (k2 : ℚ) := by exact_mod_cast hk
  exact ⟨h1, h2, by linarith, by linarith⟩

theorem reset_inv (W H : ℤ) (k : ℕ) : ViewInv W H k (reset_current_view W H) := by
  have hq : (0 : ℚ) ≤ (k : ℚ)/2 := by positivity
  exact ⟨le_refl 0, le_refl 0, by simp [reset_current_view]; linarith,
    by simp [reset_current_view]; linarith⟩

theorem clampPair_fst_nonneg (w : ℤ) (u v : ℚ) : 0 ≤ (clampPair w u v).1 :=
  le_min (le_max_left 0 _) (le_max_left 0 _)

theorem clampPair_snd_le (w : ℤ) (u v : ℚ)
    (hg : 10 ≤ (clampPair w u v).2 - (clampPair w u v).1) :
    (clampPair w u v).2 ≤ (w : ℚ) := by
  rcases le_or_lt (w : ℚ) 0 with hw | hw
  · exfalso
    have hu : max 0 (min (w : ℚ) u) ≤ 0 := max_le (le_refl 0) ((min_le_left _ _).trans hw)
    have hv : max 0 (min (w : ℚ) v) ≤ 0 := max_le (le_refl 0) ((min_le_left _ _).trans hw)
    have h1 : (clampPair w u v).2 ≤ 0 := max_le hu hv
    have h2 : 0 ≤ (clampPair w u v).1 := clampPair_fst_nonneg w u v
    linarith
  · exact max_le (max_le (le_of_lt hw) (min_le_left _ _))
      (max_le (le_of_lt hw) (min_le_left _ _))

/-- One axis of the acting zoom-in branch: offset grows by the clamped
nonnegative `x1`, and the rounded crop size keeps the drifted bound within
an extra half pixel. -/
theorem zoomIn_axis_bound (o : ℚ) (w W : ℤ) (k : ℕ) (p : ℚ × ℚ)
    (ho : 0 ≤ o) (h0 : 0 ≤ p.1) (hps : p.2 ≤ (w : ℚ))
    (h3 : o + (w : ℚ) ≤ (W : ℚ) + (k : ℚ)/2) :
    0 ≤ o + p.1 ∧
    o + p.1 + ((pyRound p.2 - pyRound p.1 : ℤ) : ℚ) ≤ (W : ℚ) + ((k + 1 : ℕ) : ℚ)/2 := by
  constructor
  · linarith
  · have hub : pyRound p.2 ≤ w := pyRound_le_int hps
    have hubq : ((pyRound p.2 : ℤ) : ℚ) ≤ (w : ℚ) := by exact_mod_cast hub
    have hlb : p.1 - 1/2 ≤ ((pyRound p.1 : ℤ) : ℚ) := le_pyRound p.1
    have hk : ((k + 1 : ℕ) : ℚ) = (k : ℚ) + 1 := by push_cast; ring
    rw [hk]
    push_cast
    linarith

theorem apply_zoom_inv (W H : ℤ) (k : ℕ) (s : ViewState) (cw ch sx sy ex ey : ℤ)
    (h : ViewInv W H k s) :
    ViewInv W H (k + 1) (apply_zoom s cw ch sx sy ex ey) := by
  obtain ⟨h1, h2, h3, h4⟩ := h
  rw [apply_zoom]
  split_ifs with hg
  · exact viewInv_mono W H (Nat.le_succ k) ⟨h1, h2, h3, h4⟩
  · push_neg at hg
    obtain ⟨hgx, hgy⟩ := hg
    have hx := zoomIn_axis_bound s.ox s.w W k _ h1
      (clampPair_fst_nonneg s.w _ _) (clampPair_snd_le s.w _ _ hgx) h3
    have hy := zoomIn_axis_bound s.oy s.h H k _ h2
      (clampPair_fst_nonneg s.h _ _) (clampPair_snd_le s.h _ _ hgy) h4
    exact ⟨hx.1, hy.1, hx.2, hy.2⟩

theorem zoomOutAxis_fst_nonneg (Wa : ℤ) (o : ℚ) (wa : ℤ) :
    0 ≤ (zoomOutAxis Wa o wa).1 := by
  rw [zoomOutAxis]
  exact le_max_left 0 _

theorem zoomOutAxis_snd_le (Wa : ℤ) (o : ℚ) (wa : ℤ) :
    (zoomOutAxis Wa o wa).2 ≤ Wa := by
  rw [zoomOutAxis]
  exact min_le_left _ _

theorem zoom_out_inv (W H : ℤ) (k : ℕ) (s : ViewState)
    (h : ViewInv W H k s) : ViewInv W H k (zoom_out_step W H s) := by
  obtain ⟨h1, h2, h3, h4⟩ := h
  rw [zoom_out_step]
  split_ifs with hg
  · exact ⟨h1, h2, h3, h4⟩
  · have hk : (0 : ℚ) ≤ (k : ℚ)/2 := by positivity
    dsimp only
    refine ⟨?_, ?_, ?_, ?_⟩
    · show (0 : ℚ) ≤ ((zoomOutAxis W s.ox s.w).1 : ℚ)
      exact_mod_cast zoomOutAxis_fst_nonneg W s.ox s.w
    · show (0 : ℚ) ≤ ((zoomOutAxis H s.oy s.h).1 : ℚ)
      exact_mod_cast zoomOutAxis_fst_nonneg H s.oy s.h
    · have key : (((zoomOutAxis W s.ox s.w).1 : ℤ) : ℚ)
          + (((zoomOutAxis W s.ox s.w).2 - (zoomOutAxis W s.ox s.w).1 : ℤ) : ℚ)
          = (((zoomOutAxis W s.ox s.w).2 : ℤ) : ℚ) := by
        push_cast
        ring
      rw [key]
      have h5 : (((zoomOutAxis W s.ox s.w).2 : ℤ) : ℚ) ≤ (W : ℚ) :=
        Int.cast_le.mpr (zoomOutAxis_snd_le W s.ox s.w)
      linarith
    · have key : (((zoomOutAxis H s.oy s.h).1 : ℤ) : ℚ)
          + (((zoomOutAxis H s.oy s.h).2 - (zoomOutAxis H s.oy s.h).1 : ℤ) : ℚ)
          = (((zoomOutAxis H s.oy s.h).2 : ℤ) : ℚ) := by
        push_cast
        ring
      rw [key]
      have h5 : (((zoomOutAxis H s.oy s.h).2 : ℤ) : ℚ) ≤ (H : ℚ) :=
        Int.cast_le.mpr (zoomOutAxis_snd_le H s.oy s.h)
      linarith

/-- C4, counterexample: the exact invariant `0 ≤ cropOrigin ∧ cropOrigin +
cropSize ≤ imageSize` (which is `ViewInv W H 0`) fails after a single
zoom-in from the full view of a 100×100 image on an 800×800 canvas, dragged
from display pixel (3,3) to (797,797): `display_scale = 8`, the unrounded
view coordinate 3/8 is added to the float `view_offset` while PIL rounds
the crop box `(0.375, …, 99.625, …)` to `(0, …, 100, …)`, leaving
`cropOrigin.x + cropWidth = 0.375 + 100 > 100`.  (All values are dyadic, so
the float computation of the code is exact and equals this `ℚ` model.) -/
theorem C4_invariant_violated_by_zoom_in :
    ¬ ViewInv 100 100 0 (runView 100 100 [ViewOp.zoomIn 800 800 3 3 797 797]) := by
  intro h
  have h3 := h.2.2.1
  revert h3
  with_unfolding_all decide

/-- C4, amended: for every operation sequence from the full-image view, the
lower half of the invariant `0 ≤ cropOrigin` holds exactly, and the upper
half holds up to float drift of at most half a pixel per zoom-in step:
`cropOrigin + cropSize ≤ imageSize + zoomInCount/2` (so sequences of only
reset and zoom-out steps satisfy the exact invariant, `zoomInCount = 0`). -/
theorem C4_view_invariant_amended (W H : ℤ) (ops : List ViewOp) :
    0 ≤ (runView W H ops).ox ∧ 0 ≤ (runView W H ops).oy ∧
    (runView W H ops).ox + ((runView W H ops).w : ℚ)
      ≤ (W : ℚ) + (zoomInCount ops : ℚ)/2 ∧
    (runView W H ops).oy + ((runView W H ops).h : ℚ)
      ≤ (H : ℚ) + (zoomInCount ops : ℚ)/2 := by
  suffices h : ViewInv W H (zoomInCount ops) (runView W H ops) from h
  induction ops using List.reverseRecOn with
  | nil => exact reset_inv W H _
  | append_singleton l op ih =>
    rw [runView, List.foldl_append, List.foldl_cons, List.foldl_nil, ← runView]
    have hcnt : zoomInCount (l ++ [op]) = zoomInCount l + zoomInCount [op] := by
      rw [zoomInCount, List.countP_append]
    rw [hcnt]
    cases op with
    | reset => exact reset_inv W H _
    | zoomOut =>
      have h0 : zoomInCount [ViewOp.zoomOut] = 0 := rfl
      rw [h0, Nat.add_zero]
      exact zoom_out_inv W H (zoomInCount l) _ ih
    | zoomIn cw ch sx sy ex ey =>
      have h1 : zoomInCount [ViewOp.zoomIn cw ch sx sy ex ey] = 1 := rfl
      rw [h1]
      exact apply_zoom_inv W H (zoomInCount l) _ cw ch sx sy ex ey ih

/-- One axis of the zoom-out superset property: any image pixel column
`[i, i+1]` lying inside both the current crop `[o, o+wa]` and the image
`[0, Wa]` also lies inside the expanded clamped crop. -/
theorem zoomOutAxis_superset (Wa : ℤ) (o : ℚ) (wa : ℤ) (i : ℤ)
    (hi1 : o ≤ (i : ℚ)) (hi2 : (i : ℚ) + 1 ≤ o + (wa : ℚ))
    (hi0 : 0 ≤ i) (hiW : i + 1 ≤ Wa) :
    ((zoomOutAxis Wa o wa).1 : ℚ) ≤ (i : ℚ) ∧
    ((i : ℚ) + 1) ≤ ((zoomOutAxis Wa o wa).2 : ℚ) := by
  rw [zoomOutAxis]
  dsimp only
  have hw1 : 1 ≤ wa := by
    have hq : (1 : ℚ) ≤ (wa : ℚ) := by linarith
    exact_mod_cast hq
  have hq0 : (0 : ℚ) ≤ (wa : ℚ) * (3/2) := by
    have hq : (0 : ℚ) ≤ (wa : ℚ) := by
      exact_mod_cast le_trans (by norm_num : (0 : ℤ) ≤ 1) hw1
    linarith
  have hnwfl : ratTrunc ((wa : ℚ) * (3/2)) = ⌊(wa : ℚ) * (3/2)⌋ := by
    rw [ratTrunc, if_pos hq0]
  obtain ⟨nw, hnw⟩ : ∃ n : ℤ, ratTrunc ((wa : ℚ) * (3/2)) = n := ⟨_, rfl⟩
  rw [hnw]
  have hub : (nw : ℚ) ≤ (wa : ℚ) * (3/2) := by
    rw [← hnw, hnwfl]
    exact Int.floor_le _
  have hlb : (wa : ℚ) * (3/2) - 1 < (nw : ℚ) := by
    rw [← hnw, hnwfl]
    exact Int.sub_one_lt_floor _
  have hnw2 : 2 * nw ≤ 3 * wa := by
    have hq : ((2 * nw : ℤ) : ℚ) ≤ ((3 * wa : ℤ) : ℚ) := by push_cast; linarith
    exact_mod_cast hq
  have hnw3 : 3 * wa ≤ 2 * nw + 1 := by
    have hq : ((3 * wa : ℤ) : ℚ) < ((2 * nw + 2 : ℤ) : ℚ) := by push_cast; linarith
    have h2 : (3 * wa : ℤ) < 2 * nw + 2 := by exact_mod_cast hq
    omega
  have hd1 : wa / 2 ≤ nw / 2 := by omega
  have hd2 : wa ≤ wa / 2 + nw - nw / 2 := by omega
  constructor
  · have hnxle : o + ((wa / 2 : ℤ) : ℚ) - ((nw / 2 : ℤ) : ℚ) ≤ (i : ℚ) := by
      have hdq : ((wa / 2 : ℤ) : ℚ) ≤ ((nw / 2 : ℤ) : ℚ) := by
        exact_mod_cast hd1
      linarith
    have ht : ratTrunc (o + ((wa / 2 : ℤ) : ℚ) - ((nw / 2 : ℤ) : ℚ)) ≤ i :=
      ratTrunc_le_of_le_int hnxle
    have hm : max 0 (ratTrunc (o + ((wa / 2 : ℤ) : ℚ)
        - ((nw / 2 : ℤ) : ℚ))) ≤ i := max_le hi0 ht
    exact_mod_cast hm
  · have hge : (i : ℚ) + 1 ≤
        (o + ((wa / 2 : ℤ) : ℚ) - ((nw / 2 : ℤ) : ℚ)) + (nw : ℚ) := by
      have hdq : (wa : ℚ) ≤ ((wa / 2 : ℤ) : ℚ) + (nw : ℚ)
          - ((nw / 2 : ℤ) : ℚ) := by exact_mod_cast hd2
      linarith
    have ht : i + 1 ≤ ratTrunc ((o + ((wa / 2 : ℤ) : ℚ)
        - ((nw / 2 : ℤ) : ℚ)) + (nw : ℚ)) := by
      apply int_le_ratTrunc_of_le
      push_cast
      push_cast at hge
      linarith
    have hm : i + 1 ≤ min Wa (ratTrunc ((o + ((wa / 2 : ℤ) : ℚ)
        - ((nw / 2 : ℤ) : ℚ)) + (nw : ℚ))) := le_min hiW ht
    exact_mod_cast hm

/-- C9: a zoom-out step yields a crop that is a superset of the crop it
replaces, subject to boundary clamping: every whole image pixel
`[i,i+1] × [j,j+1]` contained in the current crop rectangle and in the image
extent is contained in the new crop rectangle.  (In the full-extent no-op
branch the crop is unchanged.)  In particular this holds when the current
crop was produced by a preceding zoom-in. -/
theorem C9_zoom_out_superset (W H : ℤ) (s : ViewState) (i j : ℤ)
    (hx1 : s.ox ≤ (i : ℚ)) (hx2 : (i : ℚ) + 1 ≤ s.ox + (s.w : ℚ))
    (hy1 : s.oy ≤ (j : ℚ)) (hy2 : (j : ℚ) + 1 ≤ s.oy + (s.h : ℚ))
    (hi0 : 0 ≤ i) (hiW : i + 1 ≤ W) (hj0 : 0 ≤ j) (hjH : j + 1 ≤ H) :
    (zoom_out_step W H s).ox ≤ (i : ℚ) ∧
    (i : ℚ) + 1 ≤ (zoom_out_step W H s).ox + ((zoom_out_step W H s).w : ℚ) ∧
    (zoom_out_step W H s).oy ≤ (j : ℚ) ∧
    (j : ℚ) + 1 ≤ (zoom_out_step W H s).oy + ((zoom_out_step W H s).h : ℚ) := by
  rw [zoom_out_step]
  split_ifs with hg
  · exact ⟨hx1, hx2, hy1, hy2⟩
  · dsimp only
    have hxs := zoomOutAxis_superset W s.ox s.w i hx1 hx2 hi0 hiW
    have hys := zoomOutAxis_superset H s.oy s.h j hy1 hy2 hj0 hjH
    refine ⟨hxs.1, ?_, hys.1, ?_⟩
    · have key : ((zoomOutAxis W s.ox s.w).1 : ℚ)
          + (((zoomOutAxis W s.ox s.w).2 - (zoomOutAxis W s.ox s.w).1 : ℤ) : ℚ)
          = ((zoomOutAxis W s.ox s.w).2 : ℚ) := by push_cast; ring
      rw [key]
      exact hxs.2
    · have key : ((zoomOutAxis H s.oy s.h).1 : ℚ)
          + (((zoomOutAxis H s.oy s.h).2 - (zoomOutAxis H s.oy s.h).1 : ℤ) : ℚ)
          = ((zoomOutAxis H s.oy s.h).2 : ℚ) := by push_cast; ring
      rw [key]
      exact hys.2

/-- C9 witness: from the crop at origin (0,0) of size 40×40 in a 100×100
image, the zoom-out step contains the whole image pixel (5,5) that the old
crop contained. -/
theorem C9_witness :
    (zoom_out_step 100 100 ⟨0, 0, 40, 40⟩).ox ≤ ((5 : ℤ) : ℚ) ∧
    ((5 : ℤ) : ℚ) + 1 ≤ (zoom_out_step 100 100 ⟨0, 0, 40, 40⟩).ox
      + ((zoom_out_step 100 100 ⟨0, 0, 40, 40⟩).w : ℚ) ∧
    (zoom_out_step 100 100 ⟨0, 0, 40, 40⟩).oy ≤ ((5 : ℤ) : ℚ) ∧
    ((5 : ℤ) : ℚ) + 1 ≤ (zoom_out_step 100 100 ⟨0, 0, 40, 40⟩).oy
      + ((zoom_out_step 100 100 ⟨0, 0, 40, 40⟩).h : ℚ) :=
  C9_zoom_out_superset 100 100 ⟨0, 0, 40, 40⟩ 5 5 (by norm_num) (by norm_num)
    (by norm_num) (by norm_num) (by norm_num) (by norm_num) (by norm_num) (by norm_num)

/-- The per-batch state owned by the application: the sorted file list, the
monotone cursor `current_index`, the append-only result log (one
`(filename, index)` row per saved measurement, modelling the rows appended
to `innervation_results.txt`), and `current_calculated_value`. -/
structure BatchState where
  files : List String
  current_index : ℕ
  log : List (String × ℚ)
  currentValue : Option ℚ

/-- The effect of `load_image_from_disk` on the batch fields: past the end
of the queue it only shows the "Processing Complete!" dialog and returns;
otherwise it clears `current_calculated_value` (and reloads the view, which
touches no batch field). -/
def load_image_from_disk (s : BatchState) : BatchState :=
  if s.files.length ≤ s.current_index then s
  else { s with currentValue := none }

/-- `save_and_next`: a no-op without a computed value; otherwise append one
`<filename>\t<index>` row to the log, advance the cursor by one and load
the next image. -/
def save_and_next (s : BatchState) : BatchState :=
  match s.currentValue with
  | none => s
  | some v => load_image_from_disk
      { s with log := s.log ++ [(s.files.getD s.current_index "", v)],
               current_index := s.current_index + 1 }

/-- `discard_and_next`: advance the cursor by one (appending nothing) and
load the next image. -/
def discard_and_next (s : BatchState) : BatchState :=
  load_image_from_disk { s with current_index := s.current_index + 1 }

theorem load_image_from_disk_log (s : BatchState) :
    (load_image_from_disk s).log = s.log ∧
    (load_image_from_disk s).current_index = s.current_index ∧
    (load_image_from_disk s).files = s.files := by
  rw [load_image_from_disk]
  split_ifs <;> exact ⟨rfl, rfl, rfl⟩

/-- C6: with a computed value present, Save-and-next appends exactly one row
to the log and advances the cursor by exactly 1; Discard-and-next advances
the cursor by exactly 1 and appends zero rows; and neither operation
rewrites or reorders previously written rows (the old log is a prefix of
the new one, and for discard it is unchanged). -/
theorem C6_save_discard_effect (s : BatchState) (v : ℚ)
    (hv : s.currentValue = some v) :
    (save_and_next s).log.length = s.log.length + 1 ∧
    (save_and_next s).current_index = s.current_index + 1 ∧
    (save_and_next s).log.take s.log.length = s.log ∧
    (save_and_next s).log = s.log ++ [(s.files.getD s.current_index "", v)] ∧
    (discard_and_next s).current_index = s.current_index + 1 ∧
    (discard_and_next s).log = s.log := by
  have hs : save_and_next s = load_image_from_disk
      { s with log := s.log ++ [(s.files.getD s.current_index "", v)],
               current_index := s.current_index + 1 } := by
    rw [save_and_next, hv]
  have hl1 := load_image_from_disk_log
    { s with log := s.log ++ [(s.files.getD s.current_index "", v)],
             current_index := s.current_index + 1 }
  have hl2 := load_image_from_disk_log { s with current_index := s.current_index + 1 }
  refine ⟨?_, ?_, ?_, ?_, ?_, ?_⟩
  · rw [hs, hl1.1, List.length_append]
    rfl
  · rw [hs, hl1.2.1]
  · rw [hs, hl1.1]
    show List.take s.log.length (s.log ++ [(s.files.getD s.current_index "", v)]) = s.log
    exact List.take_left _ _
  · rw [hs, hl1.1]
  · rw [discard_and_next, hl2.2.1]
  · rw [discard_and_next, hl2.1]

/-- C6 witness: the concrete Measuring state with files `a.tif, b.tif`,
cursor 0, empty log and computed value 42. -/
theorem C6_witness :
    (save_and_next ⟨["a.tif", "b.tif"], 0, [], some 42⟩).log.length
      = ([] : List (String × ℚ)).length + 1 ∧
    (save_and_next ⟨["a.tif", "b.tif"], 0, [], some 42⟩).current_index = 0 + 1 ∧
    (save_and_next ⟨["a.tif", "b.tif"], 0, [], some 42⟩).log.take
      ([] : List (String × ℚ)).length = ([] : List (String × ℚ)) ∧
    (save_and_next ⟨["a.tif", "b.tif"], 0, [], some 42⟩).log
      = ([] : List (String × ℚ)) ++ [(["a.tif", "b.tif"].getD 0 "", 42)] ∧
    (discard_and_next ⟨["a.tif", "b.tif"], 0, [], some 42⟩).current_index = 0 + 1 ∧
    (discard_and_next ⟨["a.tif", "b.tif"], 0, [], some 42⟩).log
      = ([] : List (String × ℚ)) :=
  C6_save_discard_effect ⟨["a.tif", "b.tif"], 0, [], some 42⟩ 42 rfl

/-- The linear-interpolation percentile kernel of `np.percentile` on an
already sorted sample `s` at fractional rank `rank`:
`s[lo] + (rank - lo)·(s[hi] - s[lo])` with `lo = ⌊rank⌋` and `hi` the next
index capped at the last element. -/
def pctInterp (s : List ℚ) (rank : ℚ) : ℚ :=
  s.getD (⌊rank⌋.toNat) 0 +
    (rank - ⌊rank⌋) *
      (s.getD (min (⌊rank⌋.toNat + 1) (s.length - 1)) 0 - s.getD (⌊rank⌋.toNat) 0)

/-- `np.percentile(arr, q)` (default linear interpolation): sort the sample
and interpolate at rank `q/100·(n−1)`. -/
def np_percentile (q : ℚ) (l : List ℚ) : ℚ :=
  pctInterp (l.insertionSort (· ≤ ·))
    (q / 100 * (((l.insertionSort (· ≤ ·)).length : ℚ) - 1))

/-- `range_val = p98 - p2 if (p98 - p2) != 0 else 1`
from `load_image_from_disk`. -/
def range_val (l : List ℚ) : ℚ :=
  if np_percentile 98 l - np_percentile 2 l ≠ 0
  then np_percentile 98 l - np_percentile 2 l else 1

/-- One pixel of the calibration
`np.clip((arr - p2) / range_val * 255, 0, 255).astype(np.uint8)`:
`np.clip(x, 0, 255) = min(255, max(0, x))`, and `astype(np.uint8)`
truncates the clipped float toward zero (a C cast — it does not round). -/
def calibratePixel (l : List ℚ) (v : ℚ) : ℕ :=
  (ratTrunc (min 255 (max 0 ((v - np_percentile 2 l) / range_val l * 255)))).toNat

/-- The calibrated 8-bit image of `load_image_from_disk`, pixel by pixel. -/
def calibrate_image (l : List ℚ) : List ℕ := l.map (calibratePixel l)

/-- Modelled from the spec: identical to `calibratePixel` except that the
clipped value is ROUNDED to the nearest integer ("linearly map
`[p2,p98]→[0,255]`, clip, round, cast to 8-bit") instead of truncated. -/
def calibratePixelRounded (l : List ℚ) (v : ℚ) : ℕ :=
  (round (min 255 (max 0 ((v - np_percentile 2 l) / range_val l * 255))) : ℤ).toNat

/-- Modelled from the spec: the calibrated image with rounding, as §4.1 of
the spec words it. -/
def calibrate_image_rounded (l : List ℚ) : List ℕ := l.map (calibratePixelRounded l)

theorem getD_eq_get (l : List ℚ) (i : ℕ) (h : i < l.length) :
    l.getD i 0 = l.get ⟨i, h⟩ := by
  rw [List.getD_eq_getElem?_getD, List.getElem?_eq_getElem h]
  rfl

theorem sorted_getD_mono (s : List ℚ) (hs : List.Sorted (· ≤ ·) s) {i j : ℕ}
    (hij : i ≤ j) (hj : j < s.length) : s.getD i 0 ≤ s.getD j 0 := by
  have hi : i < s.length := lt_of_le_of_lt hij hj
  rw [getD_eq_get s i hi, getD_eq_get s j hj]
  exact hs.rel_get_of_le hij

theorem pct_idx_facts (n : ℕ) (r : ℚ) (h0 : 0 ≤ r) (hrn : r ≤ (n : ℚ) - 1) :
    ⌊r⌋.toNat ≤ n - 1 ∧ ⌊r⌋.toNat ≤ min (⌊r⌋.toNat + 1) (n - 1) ∧
    min (⌊r⌋.toNat + 1) (n - 1) < n ∧ 1 ≤ n := by
  have hn1 : (1 : ℚ) ≤ (n : ℚ) := by linarith
  have hn : 1 ≤ n := by exact_mod_cast hn1
  have hfl0 : 0 ≤ ⌊r⌋ := Int.le_floor.mpr (by exact_mod_cast h0)
  have h1 : ⌊r⌋ ≤ (n : ℤ) - 1 := by
    have h2 := Int.floor_le_floor hrn
    rwa [show ((n : ℚ) - 1) = (((n : ℤ) - 1 : ℤ) : ℚ) by push_cast; ring,
      Int.floor_intCast] at h2
  have hA : ⌊r⌋.toNat ≤ n - 1 := by omega
  exact ⟨hA, le_min (Nat.le_succ _) hA, by omega, hn⟩

theorem pctInterp_bounds (s : List ℚ) (hs : List.Sorted (· ≤ ·) s) (r : ℚ)
    (h0 : 0 ≤ r) (hrn : r ≤ (s.length : ℚ) - 1) :
    s.getD (⌊r⌋.toNat) 0 ≤ pctInterp s r ∧
    pctInterp s r ≤ s.getD (min (⌊r⌋.toNat + 1) (s.length - 1)) 0 := by
  obtain ⟨hA, hC, hB, hn⟩ := pct_idx_facts s.length r h0 hrn
  have hdiff : s.getD (⌊r⌋.toNat) 0 ≤ s.getD (min (⌊r⌋.toNat + 1) (s.length - 1)) 0 :=
    sorted_getD_mono s hs hC hB
  have hfr0 : 0 ≤ r - ⌊r⌋ := by
    have := Int.floor_le r
    linarith
  have hfr1 : r - ⌊r⌋ < 1 := by
    have := Int.lt_floor_add_one r
    linarith
  rw [pctInterp]
  constructor
  · nlinarith
  · nlinarith

theorem pctInterp_mono (s : List ℚ) (hs : List.Sorted (· ≤ ·) s) (r r' : ℚ)
    (h0 : 0 ≤ r) (hrr : r ≤ r') (hrn : r' ≤ (s.length : ℚ) - 1) :
    pctInterp s r ≤ pctInterp s r' := by
  have h0' : 0 ≤ r' := le_trans h0 hrr
  have hrn1 : r ≤ (s.length : ℚ) - 1 := le_trans hrr hrn
  obtain ⟨hA, hC, hB, hn⟩ := pct_idx_facts s.length r h0 hrn1
  obtain ⟨hA', hC', hB', _⟩ := pct_idx_facts s.length r' h0' hrn
  have hb := pctInterp_bounds s hs r h0 hrn1
  have hb' := pctInterp_bounds s hs r' h0' hrn
  rcases eq_or_lt_of_le (Int.floor_le_floor hrr) with heq | hlt
  · have hdiff : s.getD (⌊r⌋.toNat) 0 ≤ s.getD (min (⌊r⌋.toNat + 1) (s.length - 1)) 0 :=
      sorted_getD_mono s hs hC hB
    rw [pctInterp, pctInterp, ← heq]
    nlinarith
  · have hfl0 : 0 ≤ ⌊r⌋ := Int.le_floor.mpr (by exact_mod_cast h0)
    have hkey : min (⌊r⌋.toNat + 1) (s.length - 1) ≤ ⌊r'⌋.toNat := by omega
    have hmid : s.getD (min (⌊r⌋.toNat + 1) (s.length - 1)) 0 ≤ s.getD (⌊r'⌋.toNat) 0 :=
      sorted_getD_mono s hs hkey (by omega)
    linarith [hb.2, hb'.1, hmid]

theorem np_percentile_mono (l : List ℚ) (q q2 : ℚ)
    (h0 : 0 ≤ q) (hqq : q ≤ q2) (h100 : q2 ≤ 100) :
    np_percentile q l ≤ np_percentile q2 l := by
  rw [np_percentile, np_percentile]
  set s := l.insertionSort (· ≤ ·) with hsdef
  have hs : List.Sorted (· ≤ ·) s := List.sorted_insertionSort _ l
  rcases Nat.eq_zero_or_pos s.length with hn | hn
  · have hnil : s = [] := List.length_eq_zero.mp hn
    rw [hnil]
    simp [pctInterp]
  · have hn1 : (1 : ℚ) ≤ (s.length : ℚ) := by exact_mod_cast hn
    apply pctInterp_mono s hs _ _ ?_ ?_ ?_
    · exact mul_nonneg (div_nonneg h0 (by norm_num)) (by linarith)
    · exact mul_le_mul_of_nonneg_right (by linarith) (by linarith)
    · nlinarith [(by linarith : q2/100 ≤ 1), (by linarith : (0 : ℚ) ≤ (s.length : ℚ) - 1)]

theorem range_val_pos (l : List ℚ) : 0 < range_val l := by
  rw [range_val]
  split_ifs with h
  · have hle := np_percentile_mono l 2 98 (by norm_num) (by norm_num) (by norm_num)
    rcases lt_or_eq_of_le hle with hlt | heq
    · linarith
    · exact absurd (by rw [heq]; exact sub_self _) h
  · norm_num

theorem ratTrunc_mono_of_nonneg {a b : ℚ} (ha : 0 ≤ a) (hab : a ≤ b) :
    ratTrunc a ≤ ratTrunc b := by
  rw [ratTrunc, ratTrunc, if_pos ha, if_pos (le_trans ha hab)]
  exact Int.floor_le_floor hab

/-- C7, amended: for every image, the calibration computes the 2nd/98th
percentiles, substitutes range = 1 when they are equal, linearly maps
`[p2, p98]` to `[0, 255]`, clips, TRUNCATES toward zero (the `astype(uint8)`
cast — not rounds), and casts to 8-bit; consequently every calibrated value
lies in [0, 255] (values are naturals, so ≥ 0 always) and the per-pixel
mapping is monotone in source intensity. -/
theorem C7_calibration_bounded_and_monotone (l : List ℚ) (v w : ℚ) (hvw : v ≤ w) :
    (∀ x ∈ calibrate_image l, x ≤ 255) ∧
    calibratePixel l v ≤ calibratePixel l w := by
  constructor
  · intro x hx
    rw [calibrate_image] at hx
    obtain ⟨u, _, hux⟩ := List.mem_map.mp hx
    rw [← hux, calibratePixel]
    have h1 : min 255 (max 0 ((u - np_percentile 2 l) / range_val l * 255))
        ≤ (((255 : ℕ) : ℤ) : ℚ) := by
      push_cast
      exact min_le_left _ _
    have h2 := ratTrunc_le_of_le_int h1
    exact Int.toNat_le.mpr h2
  · rw [calibratePixel, calibratePixel]
    apply Int.toNat_le_toNat
    apply ratTrunc_mono_of_nonneg
    · exact le_min (by norm_num) (le_max_left 0 _)
    · have hr := range_val_pos l
      have hm : (v - np_percentile 2 l) / range_val l * 255
          ≤ (w - np_percentile 2 l) / range_val l * 255 := by
        apply mul_le_mul_of_nonneg_right _ (by norm_num : (0 : ℚ) ≤ 255)
        exact (div_le_div_iff_of_pos_right hr).mpr (by linarith)
      exact min_le_min (le_refl 255) (max_le_max (le_refl 0) hm)

/-- C7 witness: the concrete 3-pixel image `[0, 1, 2]` — all calibrated
values are ≤ 255 and the pixel map sends 0 and 1 in order. -/
theorem C7_witness :
    (∀ x ∈ calibrate_image [0, 1, 2], x ≤ 255) ∧
    calibratePixel [0, 1, 2] 0 ≤ calibratePixel [0, 1, 2] 1 :=
  C7_calibration_bounded_and_monotone [0, 1, 2] 0 1 (by norm_num)

/-- C7, counterexample to "rounding": on the source image `[0, 1, 2]` the
percentiles are p2 = 1/25 and p98 = 49/25, the middle pixel maps to exactly
127.5, and the code's `astype(np.uint8)` truncation yields 127 where the
claimed rounding would yield 128, so the code's calibrated image differs
from the spec-worded (rounding) one. -/
theorem C7_trunc_vs_round :
    calibrate_image [0, 1, 2] = [0, 127, 255] ∧
    calibrate_image_rounded [0, 1, 2] = [0, 128, 255] ∧
    calibrate_image [0, 1, 2] ≠ calibrate_image_rounded [0, 1, 2] := by
  refine ⟨?_, ?_, ?_⟩ <;> with_unfolding_all decide
